import Mathlib

/-!
Shallow embedding of the translatePDF document-transformation pipeline.

Sources embedded:
- `src/src/models.py` — the data model (BoundingBox, Block, MergedBlock,
  TranslatedBlock).  Python `float` coordinates are modelled as `ℚ`; float
  literals such as `0.1` denote the rationals written in the source text.
- `src/src/core/text_merger.py` — `TextBlockMerger`.
- `src/src/core/translator.py` — `Translator.translate_blocks` and
  `Translator._translate_single_block_with_retry`, with the external
  chat-completion service abstracted as an oracle from the global call
  index to an outcome (returned text or one of the distinguishable error
  classes raised by the client library).
- `src/src/core/chunk_processor.py` — `ChunkProcessor.process_chunk`, with
  the extraction collaborator's output passed in as data and the rendering
  collaborator abstracted as a function.
- `src/src/gui/controller.py` — the sequential chunk loop of
  `UIController.start_processing`.
- `src/src/core/exporter.py` — `Exporter.save_pdf`, with the PDF
  insert/save primitives abstracted (the saved document is the ordered
  list of inserted page byte strings).
- `src/src/core/layout_engine.py` — the draw-origin computation of
  `LayoutEngine._draw_text_in_bbox`.

Python strings are modelled as `String`; the string helpers used by the
source (`str.strip`, `str.endswith`, `re.sub(r"\s+", " ", ·)`,
`str.split("|||")`, `re.sub(r"^\d+\.\s*", "", ·)`) are re-implemented
below by structural recursion over the character list so that concrete
runs evaluate inside the kernel.  `Char.isAlpha` / `Char.isDigit` are the
ASCII approximations of Python's `str.isalpha` / `\d`.
-/

/-- `models.BoundingBox`: `{x, y, width, height}`, floats in extraction
units (inches), modelled over `ℚ`. -/
structure BoundingBox where
  x : ℚ
  y : ℚ
  width : ℚ
  height : ℚ
deriving DecidableEq, Repr

/-- `models.Block`: one extracted text line. -/
structure Block where
  id : String
  text : String
  bbox : BoundingBox
  page_number : ℤ
deriving DecidableEq, Repr

/-- `models.MergedBlock`: a paragraph-level unit produced by the merger. -/
structure MergedBlock where
  id : String
  text : String
  original_block_ids : List String
  page_number : ℤ
deriving DecidableEq, Repr

/-- `models.TranslatedBlock`: a merged unit paired with its translation
and the anchoring bounding box. -/
structure TranslatedBlock where
  id : String
  original_text : String
  translated_text : String
  bbox : BoundingBox
  page_number : ℤ
deriving DecidableEq, Repr

/-! ### Python string primitives -/

/-- Python `str.strip()` (ASCII whitespace). -/
def pyStrip (s : String) : String :=
  String.mk (((s.data.dropWhile Char.isWhitespace).reverse.dropWhile
    Char.isWhitespace).reverse)

/-- `True` iff the last character of `s` is `c` — Python
`s.endswith(c)` for a one-character `c`. -/
def lastCharIs (s : String) (c : Char) : Bool :=
  match s.data.getLast? with
  | some d => d = c
  | none => false

/-- One pass of `re.sub(r"\s+", " ", ·)`: every maximal run of whitespace
characters is replaced by a single space.  The flag records whether the
previous character belonged to a whitespace run. -/
def squashWsAux : List Char → Bool → List Char
  | [], _ => []
  | c :: cs, prevWs =>
    if c.isWhitespace then
      if prevWs then squashWsAux cs true else ' ' :: squashWsAux cs true
    else c :: squashWsAux cs false

/-- `re.sub(r"\s+", " ", s)`. -/
def squashWs (s : String) : String :=
  String.mk (squashWsAux s.data false)

/-! ### `text_merger.py` -/

/-- `text_merger.VERTICAL_TOLERANCE_FACTOR = 0.5`. -/
def VERTICAL_TOLERANCE_FACTOR : ℚ := 1/2

/-- `text_merger.HORIZONTAL_OVERLAP_THRESHOLD = 0.1`. -/
def HORIZONTAL_OVERLAP_THRESHOLD : ℚ := 1/10

/-- `TextBlockMerger._handle_hyphenation`: strip the text; if it ends in
`-` preceded by a letter (and has length over one), drop the trailing
hyphen, otherwise return the stripped text. -/
def handleHyphenation (text : String) : String :=
  let clean := pyStrip text
  match clean.data.reverse with
  | '-' :: c :: rest =>
    if c.isAlpha then String.mk ((c :: rest).reverse) else clean
  | _ => clean

/-- `TextBlockMerger._preprocess_text`: hyphen handling, then whitespace
normalisation, then strip. -/
def preprocessText (text : String) : String :=
  pyStrip (squashWs (handleHyphenation text))

/-- `block1.text.strip().endswith(('.', '!', '?'))` from
`TextBlockMerger._should_merge`. -/
def endsSentenceTerminator (text : String) : Bool :=
  let t := pyStrip text
  lastCharIs t '.' || lastCharIs t '!' || lastCharIs t '?'

/-- `TextBlockMerger._should_merge`. -/
def shouldMerge (block1 block2 : Block) : Bool :=
  if block1.page_number ≠ block2.page_number then false
  else
    let b1Bottom := block1.bbox.y + block1.bbox.height
    let verticalGap := block2.bbox.y - b1Bottom
    let avgHeight := (block1.bbox.height + block2.bbox.height) / 2
    if ¬(-avgHeight * (1/10) < verticalGap ∧
         verticalGap < avgHeight * VERTICAL_TOLERANCE_FACTOR) then false
    else
      let b1Left := block1.bbox.x
      let b1Right := block1.bbox.x + block1.bbox.width
      let b2Left := block2.bbox.x
      let b2Right := block2.bbox.x + block2.bbox.width
      let overlapStart := max b1Left b2Left
      let overlapEnd := min b1Right b2Right
      let horizontalOverlap := max 0 (overlapEnd - overlapStart)
      let minWidth := min block1.bbox.width block2.bbox.width
      if horizontalOverlap < minWidth * HORIZONTAL_OVERLAP_THRESHOLD ∧
         |b1Left - b2Left| > avgHeight * (1/2) then false
      else if endsSentenceTerminator block1.text then false
      else true

/-- `blocks.sort(key=lambda b: (b.bbox.y, b.bbox.x))`: the lexicographic
key order of Python's stable in-place sort. -/
def blockLe (a b : Block) : Prop :=
  a.bbox.y < b.bbox.y ∨ (a.bbox.y = b.bbox.y ∧ a.bbox.x ≤ b.bbox.x)

instance : DecidableRel blockLe := fun a b => by
  unfold blockLe; infer_instance

/-- The caller's list after `merge_blocks` returns: the in-place
`blocks.sort(...)` leaves it sorted by `(bbox.y, bbox.x)` (stable sort,
modelled by insertion sort, which is stable for this total preorder). -/
def mergeBlocksListAfter (blocks : List Block) : List Block :=
  List.insertionSort blockLe blocks

/-- Flushing the accumulator into a `MergedBlock`
(`id = "merged_" + current_original_ids[0]`, stripped text). -/
def flushMerged (ids : List String) (text : String) (page : ℤ) : MergedBlock :=
  { id := "merged_" ++ ids.headD ""
    text := pyStrip text
    original_block_ids := ids
    page_number := page }

/-- The walk over the sorted blocks in `TextBlockMerger.merge_blocks`:
the accumulator holds the current merged text, the ordered source ids,
the current page and the last block seen. -/
def mergeLoop (last : Block) (curText : String) (curIds : List String)
    (curPage : ℤ) : List Block → List MergedBlock
  | [] => [flushMerged curIds curText curPage]
  | b :: rest =>
    if shouldMerge last b then
      let processedLast := handleHyphenation last.text
      let newText :=
        if lastCharIs processedLast '-' then curText ++ preprocessText b.text
        else curText ++ " " ++ preprocessText b.text
      mergeLoop b newText (curIds ++ [b.id]) curPage rest
    else
      flushMerged curIds curText curPage ::
        mergeLoop b (preprocessText b.text) [b.id] b.page_number rest

/-- `TextBlockMerger.merge_blocks`: sort by `(bbox.y, bbox.x)`, then walk
the sorted sequence accumulating merge groups. -/
def mergeBlocks (blocks : List Block) : List MergedBlock :=
  match List.insertionSort blockLe blocks with
  | [] => []
  | b :: rest => mergeLoop b (preprocessText b.text) [b.id] b.page_number rest

/-! ### `translator.py`

The chat-completion client is abstracted as an oracle `svc` mapping the
global call index (the number of `chat.completions.create` calls made so
far on this client) to the outcome of that call: the returned message
content, or one of the exception classes distinguished by the source
(`NotFoundError`, `RateLimitError`, `Timeout`, `APIError` with a status
code, or any other exception).  A raised `NotFoundError` is modelled as
`Except.error ()`; every function threads the next call index so that the
oracle indexing is faithful across batches and chunks. -/

/-- Outcome of one `chat.completions.create` call. -/
inductive ApiResult where
  | ok (content : String)
  | notFound
  | rateLimit
  | timeout
  | apiError (status : ℕ)
  | otherError
deriving DecidableEq, Repr

/-- `re.sub(r"^\d+\.\s*", "", s)`: strip a leading numeric prefix — one
or more ASCII digits, a dot, then any whitespace; no change when the
prefix is absent. -/
def stripLeadingNumber (s : String) : String :=
  let cs := s.data
  let ds := cs.takeWhile Char.isDigit
  match ds, cs.drop ds.length with
  | [], _ => s
  | _ :: _, '.' :: rest => String.mk (rest.dropWhile Char.isWhitespace)
  | _ :: _, _ => s

/-- Python `raw.split("|||")` by structural recursion: split on each
non-overlapping occurrence of three pipe characters, left to right. -/
def splitBarsAux : List Char → List Char → List (List Char)
  | '|' :: '|' :: '|' :: rest, acc => acc.reverse :: splitBarsAux rest []
  | c :: cs, acc => splitBarsAux cs (c :: acc)
  | [], acc => [acc.reverse]

/-- `raw_response_text.split("|||")`. -/
def splitBars (s : String) : List String :=
  (splitBarsAux s.data []).map String.mk

/-- The parsing stage of one batch attempt in
`Translator.translate_blocks`: split the stripped raw response on
`"|||"`, strip each segment, drop each segment's leading numeric prefix
and strip again. -/
def cleanedTranslations (content : String) : List String :=
  let raw := pyStrip content
  ((splitBars raw).map pyStrip).map (fun t => pyStrip (stripLeadingNumber t))

/-- The parse-count check of one batch attempt: the cleaned segments are
accepted only when their number equals the batch size `n`. -/
def parseBatchResponse (content : String) (n : ℕ) : Option (List String) :=
  let cleaned := cleanedTranslations content
  if cleaned.length = n then some cleaned else none

/-- How the retry loop of one batch ends: a successfully parsed list of
translations (`break` after a count match), a skip (`break` on a 400
`APIError` or an unexpected exception — nothing is emitted for the
batch), or exhaustion of all attempts (the `for`-`else` branch, which
falls back to per-unit translation). -/
inductive BatchOutcome where
  | success (ts : List String)
  | skip
  | fallback
deriving DecidableEq, Repr

/-- The `for attempt in range(max_retries)` loop of one batch in
`Translator.translate_blocks`.  `fuel` is the number of attempts left;
`fuel = 0` is the loop having ended without `break` (the `for`-`else`
fallback branch).  Returns the outcome (or the raised `NotFoundError`)
and the next global call index. -/
def batchLoop (svc : ℕ → ApiResult) (n : ℕ) :
    ℕ → ℕ → (Except Unit BatchOutcome) × ℕ
  | 0, cidx => (.ok .fallback, cidx)
  | fuel + 1, cidx =>
    match svc cidx with
    | .ok content =>
      match parseBatchResponse content n with
      | some ts => (.ok (.success ts), cidx + 1)
      | none => batchLoop svc n fuel (cidx + 1)
    | .notFound => (.error (), cidx + 1)
    | .rateLimit => batchLoop svc n fuel (cidx + 1)
    | .timeout => batchLoop svc n fuel (cidx + 1)
    | .apiError status =>
      if status = 400 then (.ok .skip, cidx + 1)
      else batchLoop svc n fuel (cidx + 1)
    | .otherError => (.ok .skip, cidx + 1)

/-- `Translator._translate_single_block_with_retry`: per-unit fallback
call with its own retry loop; returns the translated text, `none` when
the unit is given up on, or the raised `NotFoundError`. -/
def singleLoop (svc : ℕ → ApiResult) :
    ℕ → ℕ → (Except Unit (Option String)) × ℕ
  | 0, cidx => (.ok none, cidx)
  | fuel + 1, cidx =>
    match svc cidx with
    | .ok content => (.ok (some (pyStrip content)), cidx + 1)
    | .notFound => (.error (), cidx + 1)
    | .rateLimit => singleLoop svc fuel (cidx + 1)
    | .timeout => singleLoop svc fuel (cidx + 1)
    | .apiError status =>
      if status = 400 then (.ok none, cidx + 1)
      else singleLoop svc fuel (cidx + 1)
    | .otherError => (.ok none, cidx + 1)

/-- `translator.TRANSLATION_BATCH_SIZE = 40`. -/
def TRANSLATION_BATCH_SIZE : ℕ := 40

/-- `range(0, len(non_empty_blocks), TRANSLATION_BATCH_SIZE)` slicing:
group a list into consecutive batches.  `room` is the space left in the
current batch, `acc` the (reversed) current batch. -/
def batchSplitAux (size : ℕ) : List α → List α → ℕ → List (List α)
  | [], acc, _ => if acc.isEmpty then [] else [acc.reverse]
  | x :: xs, acc, 0 => acc.reverse :: batchSplitAux size xs [x] (size - 1)
  | x :: xs, acc, room + 1 => batchSplitAux size xs (x :: acc) room

/-- Split a list into consecutive batches of `size` (the last batch may
be shorter). -/
def batchSplit (size : ℕ) (l : List α) : List (List α) :=
  batchSplitAux size l [] size

/-- Building one `TranslatedBlock` from a successfully translated unit:
the bbox is recovered from the Block referenced by the first id in
`original_block_ids` via `original_blocks_map`; when that Block cannot
be found the unit is dropped with a warning.  (The source indexes
`original_block_ids[0]`; `headD ""` is its total rendering — merger
output always carries at least one id.) -/
def emitTranslated (omap : String → Option Block) (mb : MergedBlock)
    (translatedText : String) : List TranslatedBlock :=
  match omap (mb.original_block_ids.headD "") with
  | some originalBlock =>
    [{ id := mb.id
       original_text := mb.text
       translated_text := translatedText
       bbox := originalBlock.bbox
       page_number := mb.page_number }]
  | none => []

/-- The per-unit fallback pass over one exhausted batch
(`for block_in_batch in batch_blocks` in `Translator.translate_blocks`). -/
def fallbackBatch (svc : ℕ → ApiResult) (omap : String → Option Block) :
    List MergedBlock → ℕ → (Except Unit (List TranslatedBlock)) × ℕ
  | [], cidx => (.ok [], cidx)
  | mb :: rest, cidx =>
    match singleLoop svc 3 cidx with
    | (.error e, c) => (.error e, c)
    | (.ok none, c) => fallbackBatch svc omap rest c
    | (.ok (some t), c) =>
      match fallbackBatch svc omap rest c with
      | (.error e, c2) => (.error e, c2)
      | (.ok tbs, c2) => (.ok (emitTranslated omap mb t ++ tbs), c2)

/-- The outer `for i in range(0, len(non_empty_blocks), ...)` loop of
`Translator.translate_blocks`, one iteration per batch: run the batch
retry loop (`max_retries = 3`), then either emit the zipped
`TranslatedBlock`s, emit nothing (skip), or run the per-unit fallback. -/
def translateBatches (svc : ℕ → ApiResult) (omap : String → Option Block) :
    List (List MergedBlock) → ℕ → (Except Unit (List TranslatedBlock)) × ℕ
  | [], cidx => (.ok [], cidx)
  | batch :: rest, cidx =>
    match batchLoop svc batch.length 3 cidx with
    | (.error e, c) => (.error e, c)
    | (.ok .skip, c) => translateBatches svc omap rest c
    | (.ok .fallback, c) =>
      match fallbackBatch svc omap batch c with
      | (.error e, c2) => (.error e, c2)
      | (.ok tbs, c2) =>
        match translateBatches svc omap rest c2 with
        | (.error e, c3) => (.error e, c3)
        | (.ok tbs2, c3) => (.ok (tbs ++ tbs2), c3)
    | (.ok (.success ts), c) =>
      match translateBatches svc omap rest c with
      | (.error e, c2) => (.error e, c2)
      | (.ok tbs2, c2) =>
        (.ok ((batch.zip ts).flatMap
          (fun p => emitTranslated omap p.1 p.2) ++ tbs2), c2)

/-- `Translator.translate_blocks`: drop empty and whitespace-only units,
short-circuit to `[]` when nothing is left, otherwise process the
batches of `TRANSLATION_BATCH_SIZE` in order. -/
def translateBlocks (svc : ℕ → ApiResult) (omap : String → Option Block)
    (merged_blocks : List MergedBlock) (cidx : ℕ) :
    (Except Unit (List TranslatedBlock)) × ℕ :=
  if merged_blocks.isEmpty then (.ok [], cidx)
  else
    let nonEmptyBlocks :=
      merged_blocks.filter (fun b => !(pyStrip b.text).isEmpty)
    if nonEmptyBlocks.isEmpty then (.ok [], cidx)
    else translateBatches svc omap
      (batchSplit TRANSLATION_BATCH_SIZE nonEmptyBlocks) cidx

/-! ### `chunk_processor.py` and the chunk loop of `controller.py`

The extraction collaborator's output for a chunk is passed in as the
list of `Block`s it produced; the rendering collaborator
(`LayoutEngine.overlay_text_on_page`) is abstracted as a function from
the page number and that page's translated blocks to the rendered page
bytes (`none` models a rendering failure returning `None`).  Page bytes
are byte strings modelled as `List ℕ`, and the accumulated page map is
an association list with Python-`dict` lookup semantics. -/

/-- Rendered page bytes. -/
abbrev PageBytes := List ℕ

/-- The `page_number → rendered bytes` dictionary. -/
abbrev PageMap := List (ℤ × PageBytes)

/-- Python `dict.get`: the value of the last binding of the key (later
assignments override earlier ones). -/
def dictGet (m : PageMap) (k : ℤ) : Option PageBytes :=
  m.foldl (fun acc kv => if kv.1 = k then some kv.2 else acc) none

/-- Python `dict.update`: bindings of `new` override those of `old`. -/
def dictUpdate (old new : PageMap) : PageMap :=
  old.filter (fun kv => !(new.any (fun kv2 => kv2.1 = kv.1))) ++ new

/-- `original_blocks_map = {b.id: b for b in initial_blocks}`: a Python
dict comprehension, later bindings overriding earlier ones. -/
def buildBlockMap (blocks : List Block) : String → Option Block :=
  fun i => blocks.foldl (fun acc b => if b.id = i then some b else acc) none

/-- `sorted(list(set(block.page_number for block in translated_blocks)))`:
the distinct page numbers in ascending order. -/
def sortedUniquePages (pages : List ℤ) : List ℤ :=
  List.insertionSort (· ≤ ·) pages.eraseDups

/-- The per-page rendering loop of `ChunkProcessor.process_chunk`
(step 4): render each page carrying translated blocks and keep the pages
whose rendered bytes are truthy (`if rendered_page_bytes:` — `None` and
empty bytes are both skipped with a warning). -/
def renderPages (render : ℤ → List TranslatedBlock → Option PageBytes)
    (tbs : List TranslatedBlock) : PageMap :=
  (sortedUniquePages (tbs.map (·.page_number))).filterMap fun p =>
    match render p (tbs.filter (fun tb => tb.page_number = p)) with
    | some bytes => if bytes.isEmpty then none else some (p, bytes)
    | none => none

/-- The `try` body of `ChunkProcessor.process_chunk`: extraction output →
merge → translate → render.  An exception escaping any step (here: the
re-raised `NotFoundError` from the translator) is the `Except.error`
case. -/
def processChunkBody (svc : ℕ → ApiResult)
    (render : ℤ → List TranslatedBlock → Option PageBytes)
    (initialBlocks : List Block) (cidx : ℕ) :
    (Except Unit PageMap) × ℕ :=
  if initialBlocks.isEmpty then (.ok [], cidx)
  else
    let omap := buildBlockMap initialBlocks
    let merged := mergeBlocks initialBlocks
    match translateBlocks svc omap merged cidx with
    | (.error e, c) => (.error e, c)
    | (.ok translatedBlocks, c) =>
      if translatedBlocks.isEmpty then (.ok [], c)
      else (.ok (renderPages render translatedBlocks), c)

/-- `ChunkProcessor.process_chunk`: the body wrapped in
`except Exception: return {}` — every exception, the translator's
`NotFoundError` included, is caught and turned into an empty page map. -/
def processChunk (svc : ℕ → ApiResult)
    (render : ℤ → List TranslatedBlock → Option PageBytes)
    (initialBlocks : List Block) (cidx : ℕ) : PageMap × ℕ :=
  match processChunkBody svc render initialBlocks cidx with
  | (.error _, c) => ([], c)
  | (.ok m, c) => (m, c)

/-- The sequential chunk loop of `UIController.start_processing`:
`all_rendered_pages.update(self.chunk_processor.process_chunk(...))` for
each chunk in order, starting from the accumulated map `acc`. -/
def runChunksAux (svc : ℕ → ApiResult)
    (render : ℤ → List TranslatedBlock → Option PageBytes)
    (acc : PageMap) : List (List Block) → ℕ → PageMap
  | [], _ => acc
  | chunkBlocks :: rest, cidx =>
    match processChunk svc render chunkBlocks cidx with
    | (m, c) => runChunksAux svc render (dictUpdate acc m) rest c

/-- The whole run's page-map accumulation across chunks. -/
def runChunks (svc : ℕ → ApiResult)
    (render : ℤ → List TranslatedBlock → Option PageBytes)
    (chunks : List (List Block)) (cidx : ℕ) : PageMap :=
  runChunksAux svc render [] chunks cidx

/-! ### `exporter.py` -/

/-- The pages `1 .. total_pages` that `Exporter.save_pdf` iterates, in
ascending order (`range(1, total_pages + 1)`). -/
def pageRange (totalPages : ℕ) : List ℤ :=
  (List.range' 1 totalPages).map (fun n => (n : ℤ))

/-- The page-insertion loop of `Exporter.save_pdf`: for each page number
in order, look it up in the map and insert its bytes when truthy
(`if page_bytes:` — a missing page and empty bytes are both skipped). -/
def savePdfScan (m : PageMap) : List ℤ → List PageBytes
  | [] => []
  | p :: ps =>
    match dictGet m p with
    | some bytes =>
      if bytes.isEmpty then savePdfScan m ps else bytes :: savePdfScan m ps
    | none => savePdfScan m ps

/-- `Exporter.save_pdf`: the document saved at `output_path`, as the
ordered list of inserted page bytes; `none` when `added_pages_count`
stayed zero and no file is written. -/
def savePdfResult (m : PageMap) (totalPages : ℕ) : Option (List PageBytes) :=
  let doc := savePdfScan m (pageRange totalPages)
  if doc.length > 0 then some doc else none

/-! ### `layout_engine.py` -/

/-- The draw-origin computation of `LayoutEngine._draw_text_in_bbox`:
convert the bbox from inches to points (the converted height is clamped
to at least one point), then flip the vertical axis
(`frame_y = page_height - (bbox_y_pt + bbox_height_pt)`). -/
def drawOrigin (bbox : BoundingBox) (pageHeight : ℚ) : ℚ × ℚ :=
  let bboxXPt := bbox.x * 72
  let bboxYPt := bbox.y * 72
  let bboxHeightPt := max 1 (bbox.height * 72)
  (bboxXPt, pageHeight - (bboxYPt + bboxHeightPt))

/-! ## Theorems about the text merger -/

/-- The ids collected along the merge walk: the accumulator's ids
followed by the ids of the remaining blocks, in order. -/
theorem mergeLoop_ids : ∀ (l : List Block) (last : Block) (t : String)
    (ids : List String) (p : ℤ),
    ((mergeLoop last t ids p l).map MergedBlock.original_block_ids).flatten =
      ids ++ l.map Block.id
  | [], _, _, _, _ => by simp [mergeLoop, flushMerged]
  | b :: rest, last, t, ids, p => by
    by_cases h : shouldMerge last b
    · rw [mergeLoop, if_pos h, mergeLoop_ids rest]
      simp
    · rw [mergeLoop, if_neg h]
      simp only [List.map_cons, List.flatten_cons, mergeLoop_ids rest, flushMerged]
      simp

/-- Merging accepts only blocks on the page of the previous block. -/
theorem shouldMerge_page_eq {b1 b2 : Block} (h : shouldMerge b1 b2 = true) :
    b1.page_number = b2.page_number := by
  by_contra hne
  unfold shouldMerge at h
  rw [if_pos hne] at h
  exact Bool.false_ne_true h

/-- Every merge group flushed by the walk consists of blocks drawn from
`S` that all lie on the page recorded in the flushed `MergedBlock`,
provided the accumulator already does. -/
theorem mergeLoop_group (S : List Block) :
    ∀ (l : List Block), (∀ x ∈ l, x ∈ S) →
    ∀ (last : Block) (acc : List Block) (t : String) (p : ℤ),
      (∀ x ∈ acc, x ∈ S) → (∀ x ∈ acc, x.page_number = p) →
      last.page_number = p →
      ∀ m ∈ mergeLoop last t (acc.map Block.id) p l,
        ∃ grp : List Block, (∀ x ∈ grp, x ∈ S) ∧
          m.original_block_ids = grp.map Block.id ∧
          ∀ x ∈ grp, x.page_number = m.page_number
  | [], _, last, acc, t, p, haccS, haccP, _, m, hm => by
    simp only [mergeLoop, List.mem_singleton] at hm
    subst hm
    exact ⟨acc, haccS, rfl, haccP⟩
  | b :: rest, hl, last, acc, t, p, haccS, haccP, hlast, m, hm => by
    have hbS : b ∈ S := hl b (List.mem_cons_self _ _)
    have hrest : ∀ x ∈ rest, x ∈ S := fun x hx => hl x (List.mem_cons_of_mem _ hx)
    by_cases h : shouldMerge last b
    · rw [mergeLoop, if_pos h] at hm
      have hbP : b.page_number = p := (shouldMerge_page_eq h).symm.trans hlast
      have hmap : acc.map Block.id ++ [b.id] = (acc ++ [b]).map Block.id := by simp
      rw [hmap] at hm
      exact mergeLoop_group S rest hrest b (acc ++ [b]) _ p
        (fun x hx => by
          rcases List.mem_append.mp hx with hx' | hx'
          · exact haccS x hx'
          · simp at hx'; subst hx'; exact hbS)
        (fun x hx => by
          rcases List.mem_append.mp hx with hx' | hx'
          · exact haccP x hx'
          · simp at hx'; subst hx'; exact hbP)
        hbP m hm
    · rw [mergeLoop, if_neg h] at hm
      rcases List.mem_cons.mp hm with hm' | hm'
      · subst hm'
        exact ⟨acc, haccS, rfl, haccP⟩
      · have : [b.id] = [b].map Block.id := by simp
        rw [this] at hm'
        exact mergeLoop_group S rest hrest b [b] _ b.page_number
          (fun x hx => by simp at hx; subst hx; exact hbS)
          (fun x hx => by simp at hx; subst hx; rfl) rfl m hm'

/-- C3 (counterexample): `merge_blocks` does not leave the caller's list
unchanged — `blocks.sort(...)` reorders it in place.  With the blocks
listed against the `(bbox.y, bbox.x)` order, the list the caller holds
after the call differs from the one passed in. -/
theorem merge_mutates_caller_list :
    mergeBlocksListAfter
        [⟨"a1", "Second", ⟨0, 10, 100, 10⟩, 1⟩,
         ⟨"b1", "First", ⟨0, 0, 100, 10⟩, 1⟩] ≠
      [⟨"a1", "Second", ⟨0, 10, 100, 10⟩, 1⟩,
       ⟨"b1", "First", ⟨0, 0, 100, 10⟩, 1⟩] := by
  decide

/-- C3 (amended): the call re-orders the caller's list in place (stable
sort by `(bbox.y, bbox.x)`) but changes nothing else: the resulting list
is a permutation of the input — same length, same Blocks with all their
fields intact, only the order may differ. -/
theorem merge_caller_list_perm (blocks : List Block) :
    (mergeBlocksListAfter blocks).Perm blocks ∧
      (mergeBlocksListAfter blocks).length = blocks.length :=
  ⟨List.perm_insertionSort blockLe blocks,
   (List.perm_insertionSort blockLe blocks).length_eq⟩

/-- C4: the concatenation of the `original_block_ids` lists over the
output of `merge_blocks`, in output order, is a permutation of the input
blocks' ids — no id is lost and none is duplicated. -/
theorem merge_preserves_ids (blocks : List Block) :
    ((mergeBlocks blocks).map MergedBlock.original_block_ids).flatten.Perm
      (blocks.map Block.id) := by
  unfold mergeBlocks
  rcases hsort : List.insertionSort blockLe blocks with _ | ⟨b, rest⟩
  · have : blocks = [] := by
      have := List.perm_insertionSort blockLe blocks
      rw [hsort] at this
      exact (List.Perm.nil_eq this).symm
    subst this
    simp
  · have hperm : (b :: rest).Perm blocks := by
      have := List.perm_insertionSort blockLe blocks
      rwa [hsort] at this
    have : ([b.id] ++ rest.map Block.id) = (b :: rest).map Block.id := by simp
    rw [mergeLoop_ids, this]
    exact hperm.map Block.id

/-- C5: when the input blocks carry distinct ids (as the extraction
collaborator guarantees — `models.py` documents `id` as the unique
identifier of a block), every `MergedBlock` produced by `merge_blocks`
refers only to blocks on one page, and its own `page_number` is that
common page: every referenced input block's page equals the
`MergedBlock`'s page. -/
theorem merge_page_isolation (blocks : List Block)
    (hnodup : (blocks.map Block.id).Nodup) :
    ∀ m ∈ mergeBlocks blocks, ∀ b ∈ blocks,
      b.id ∈ m.original_block_ids → b.page_number = m.page_number := by
  intro m hm b hb hid
  unfold mergeBlocks at hm
  rcases hsort : List.insertionSort blockLe blocks with _ | ⟨b0, rest⟩
  · rw [hsort] at hm; simp at hm
  · rw [hsort] at hm
    have hperm : (b0 :: rest).Perm blocks := by
      have := List.perm_insertionSort blockLe blocks
      rwa [hsort] at this
    have hmemS : ∀ x ∈ b0 :: rest, x ∈ blocks := fun x hx => hperm.mem_iff.mp hx
    have hb0 : b0 ∈ blocks := hmemS b0 (List.mem_cons_self _ _)
    have hm2 : m ∈ mergeLoop b0 (preprocessText b0.text) ([b0].map Block.id)
        b0.page_number rest := hm
    obtain ⟨grp, hgS, hids, hpg⟩ :=
      mergeLoop_group blocks rest
        (fun x hx => hmemS x (List.mem_cons_of_mem _ hx))
        b0 [b0] (preprocessText b0.text) b0.page_number
        (fun x hx => by simp at hx; subst hx; exact hb0)
        (fun x hx => by simp at hx; subst hx; rfl) rfl m hm2
    rw [hids] at hid
    obtain ⟨g, hg, hgid⟩ := List.mem_map.mp hid
    have : g = b := List.inj_on_of_nodup_map hnodup (hgS g hg) hb hgid
    subst this
    exact hpg g hg

/-- A single extracted block used by the C5 witness. -/
def singleBlock : Block := ⟨"s1", "Hello", ⟨0, 0, 1, 1⟩, 4⟩

/-- C5 (witness): on the one-block input `singleBlock` (page 4, id
`"s1"`), the id list is duplicate-free and the referenced block's page
equals the merged block's page. -/
theorem merge_page_isolation_witness :
    (([singleBlock].map Block.id).Nodup) ∧
      singleBlock.page_number =
        (MergedBlock.page_number ⟨"merged_s1", "Hello", ["s1"], 4⟩) :=
  ⟨by decide,
   merge_page_isolation [singleBlock] (by decide)
     ⟨"merged_s1", "Hello", ["s1"], 4⟩ (by decide)
     singleBlock (by decide) (by decide)⟩

/-- First block of the hyphenation example: a line ending in a
hyphenated word fragment. -/
def examBlock : Block := ⟨"e1", "exam-", ⟨0, 0, 100, 10⟩, 1⟩

/-- Second block of the hyphenation example: the continuation fragment,
directly below the first (zero vertical gap, full horizontal overlap),
so all spatial merge checks pass. -/
def pleBlock : Block := ⟨"p1", "ple", ⟨0, 10, 100, 10⟩, 1⟩

/-- C2 (code result at the failing input): the two fragments do merge
into one `MergedBlock`, but its text is `"exam ple"`, not `"example"`:
`_preprocess_text` removes the trailing hyphen from every block, and the
join-without-space branch tests `endswith('-')` on the output of
`_handle_hyphenation` — the text with the hyphen already stripped — so a
space is always inserted for a letter-hyphen line break. -/
theorem hyphenation_join_inserts_space :
    mergeBlocks [examBlock, pleBlock] =
      [⟨"merged_e1", "exam ple", ["e1", "p1"], 1⟩] := by
  have hsort : List.insertionSort blockLe [examBlock, pleBlock] =
      [examBlock, pleBlock] := by decide
  have hterm : endsSentenceTerminator "exam-" = false := by decide
  have hsm : shouldMerge examBlock pleBlock = true := by
    simp only [shouldMerge, examBlock, pleBlock, hterm,
      VERTICAL_TOLERANCE_FACTOR, HORIZONTAL_OVERLAP_THRESHOLD]
    norm_num
  rw [mergeBlocks, hsort]
  show mergeLoop examBlock (preprocessText examBlock.text) [examBlock.id]
      examBlock.page_number [pleBlock] =
    [⟨"merged_e1", "exam ple", ["e1", "p1"], 1⟩]
  rw [mergeLoop, if_pos hsm]
  decide

/-- First block of the sentence-terminator example. -/
def doneBlock : Block := ⟨"d1", "Done.", ⟨0, 0, 100, 10⟩, 1⟩

/-- Second block of the sentence-terminator example, just below the
first. -/
def nextBlock : Block := ⟨"n1", "Next line", ⟨0, 9, 100, 10⟩, 1⟩

/-- C9: whenever the first block's stripped text ends in `.`, `!` or
`?`, `_should_merge` rejects the pair, so the two blocks never land in
the same `MergedBlock`; in particular the blocks `"Done."` at
`(0,0,100,10)` and `"Next line"` at `(0,9,100,10)` on page 1 yield two
separate `MergedBlock`s. -/
theorem terminator_never_merges :
    (∀ b1 b2 : Block, endsSentenceTerminator b1.text = true →
      shouldMerge b1 b2 = false) ∧
    mergeBlocks [doneBlock, nextBlock] =
      [⟨"merged_d1", "Done.", ["d1"], 1⟩,
       ⟨"merged_n1", "Next line", ["n1"], 1⟩] := by
  constructor
  · intro b1 b2 h
    simp [shouldMerge, h]
  · have hsort : List.insertionSort blockLe [doneBlock, nextBlock] =
        [doneBlock, nextBlock] := by decide
    have hsm : shouldMerge doneBlock nextBlock = false := by
      simp only [shouldMerge, doneBlock, nextBlock,
        VERTICAL_TOLERANCE_FACTOR, HORIZONTAL_OVERLAP_THRESHOLD]
      norm_num
    rw [mergeBlocks, hsort]
    show mergeLoop doneBlock (preprocessText doneBlock.text) [doneBlock.id]
        doneBlock.page_number [nextBlock] =
      [⟨"merged_d1", "Done.", ["d1"], 1⟩,
       ⟨"merged_n1", "Next line", ["n1"], 1⟩]
    rw [mergeLoop, if_neg (by simp [hsm])]
    decide

/-- C9 (witness): applied to the terminator example pair —
`"Done."` ends in `.`, so the merge predicate rejects. -/
theorem terminator_never_merges_witness :
    shouldMerge doneBlock nextBlock = false :=
  terminator_never_merges.1 doneBlock nextBlock (by decide)

/-! ## Theorems about the translator -/

/-- A parse accepted by the count check has exactly the batch size many
segments. -/
theorem parseBatchResponse_length {content : String} {n : ℕ} {ts : List String}
    (h : parseBatchResponse content n = some ts) : ts.length = n := by
  unfold parseBatchResponse at h
  by_cases hlen : (cleanedTranslations content).length = n
  · rw [if_pos hlen] at h
    cases h
    exact hlen
  · rw [if_neg hlen] at h
    cases h

/-- C6: a service response whose cleaned segment count differs from the
batch size emits nothing and is treated as one failed attempt — the
batch retry loop continues exactly as if that attempt had not produced a
response (retrying while attempts remain, falling through to the
per-unit fallback once they are exhausted); moreover no run of the batch
loop ever succeeds with a segment list whose length differs from the
batch size, so a mismatched response can never surface as a partial
result. -/
theorem batch_mismatch_retries (svc : ℕ → ApiResult) (n cidx fuel : ℕ)
    (content : String) (hcall : svc cidx = .ok content)
    (hmis : (cleanedTranslations content).length ≠ n) :
    batchLoop svc n (fuel + 1) cidx = batchLoop svc n fuel (cidx + 1) ∧
    ∀ fuel2 c ts c2, batchLoop svc n fuel2 c = (.ok (.success ts), c2) →
      ts.length = n := by
  constructor
  · have hparse : parseBatchResponse content n = none := by
      unfold parseBatchResponse
      rw [if_neg hmis]
    have hstep : batchLoop svc n (fuel + 1) cidx =
        match parseBatchResponse content n with
        | some ts => (Except.ok (BatchOutcome.success ts), cidx + 1)
        | none => batchLoop svc n fuel (cidx + 1) := by
      rw [batchLoop, hcall]
    rw [hstep, hparse]
  · intro fuel2
    induction fuel2 with
    | zero =>
      intro c ts c2 h
      rw [batchLoop] at h
      simp at h
    | succ k ih =>
      intro c ts c2 h
      rw [batchLoop] at h
      cases hsvc : svc c with
      | ok content2 =>
        simp only [hsvc] at h
        cases hp : parseBatchResponse content2 n with
        | some ts2 =>
          simp only [hp] at h
          simp at h
          obtain ⟨hts, -⟩ := h
          have hlen := parseBatchResponse_length hp
          subst hts
          exact hlen
        | none =>
          simp only [hp] at h
          exact ih _ _ _ h
      | notFound => simp only [hsvc] at h; simp at h
      | rateLimit => simp only [hsvc] at h; exact ih _ _ _ h
      | timeout => simp only [hsvc] at h; exact ih _ _ _ h
      | apiError status =>
        simp only [hsvc] at h
        by_cases h400 : status = 400
        · rw [if_pos h400] at h; simp at h
        · rw [if_neg h400] at h; exact ih _ _ _ h
      | otherError => simp only [hsvc] at h; simp at h

/-- A service oracle that always answers with two segments. -/
def twoSegmentSvc : ℕ → ApiResult := fun _ => .ok "1. A ||| 2. B"

/-- C6 (witness): against a batch of three units the two-segment
response is a parse mismatch, so the attempt at call index 0 with three
attempts left continues as the loop with two attempts left at call
index 1. -/
theorem batch_mismatch_retries_witness :
    batchLoop twoSegmentSvc 3 3 0 = batchLoop twoSegmentSvc 3 2 1 :=
  (batch_mismatch_retries twoSegmentSvc 3 0 2 "1. A ||| 2. B" rfl
    (by decide)).1

/-- Every member of every batch produced by the splitter comes from the
input list or from the seed accumulator. -/
theorem batchSplitAux_mem (size : ℕ) :
    ∀ (l acc : List α) (room : ℕ) (batch : List α),
      batch ∈ batchSplitAux size l acc room → ∀ x ∈ batch, x ∈ l ∨ x ∈ acc
  | [], acc, room, batch, hb, x, hx => by
    simp only [batchSplitAux] at hb
    by_cases hacc : acc.isEmpty
    · rw [if_pos hacc] at hb; simp at hb
    · rw [if_neg hacc] at hb
      simp only [List.mem_singleton] at hb
      subst hb
      exact Or.inr (List.mem_reverse.mp hx)
  | y :: ys, acc, 0, batch, hb, x, hx => by
    simp only [batchSplitAux] at hb
    rcases List.mem_cons.mp hb with hb2 | hb2
    · subst hb2; exact Or.inr (List.mem_reverse.mp hx)
    · rcases batchSplitAux_mem size ys [y] (size - 1) batch hb2 x hx with h | h
      · exact Or.inl (List.mem_cons_of_mem _ h)
      · simp only [List.mem_singleton] at h
        subst h
        exact Or.inl (List.mem_cons_self _ _)
  | y :: ys, acc, room + 1, batch, hb, x, hx => by
    simp only [batchSplitAux] at hb
    rcases batchSplitAux_mem size ys (y :: acc) room batch hb x hx with h | h
    · exact Or.inl (List.mem_cons_of_mem _ h)
    · rcases List.mem_cons.mp h with h2 | h2
      · subst h2; exact Or.inl (List.mem_cons_self _ _)
      · exact Or.inr h2

/-- Every member of every batch comes from the list that was split. -/
theorem batchSplit_mem {size : ℕ} {l : List α} {batch : List α}
    (hb : batch ∈ batchSplit size l) : ∀ x ∈ batch, x ∈ l := by
  intro x hx
  rcases batchSplitAux_mem size l [] size batch hb x hx with h | h
  · exact h
  · simp at h

/-- Whatever `emitTranslated` emits records the unit's own text as
`original_text`. -/
theorem emitTranslated_orig {omap : String → Option Block}
    {mb : MergedBlock} {t : String} :
    ∀ tb ∈ emitTranslated omap mb t, tb.original_text = mb.text := by
  intro tb htb
  unfold emitTranslated at htb
  cases h : omap (mb.original_block_ids.headD "") with
  | some ob =>
    simp only [h, List.mem_singleton] at htb
    subst htb
    rfl
  | none => simp only [h] at htb; simp at htb

/-- Every block emitted by the per-unit fallback pass records the text
of one of the batch's units as `original_text`. -/
theorem fallbackBatch_orig (svc : ℕ → ApiResult) (omap : String → Option Block) :
    ∀ (batch : List MergedBlock) (cidx : ℕ) (tbs : List TranslatedBlock) (c : ℕ),
      fallbackBatch svc omap batch cidx = (.ok tbs, c) →
      ∀ tb ∈ tbs, ∃ mb ∈ batch, tb.original_text = mb.text
  | [], cidx, tbs, c, h, tb, htb => by
    rw [fallbackBatch] at h
    simp at h
    obtain ⟨h1, -⟩ := h
    subst h1
    simp at htb
  | mb :: rest, cidx, tbs, c, h, tb, htb => by
    rw [fallbackBatch] at h
    cases hs : singleLoop svc 3 cidx with
    | mk e c1 =>
      cases e with
      | error u => simp only [hs] at h; simp at h
      | ok o =>
        cases o with
        | none =>
          simp only [hs] at h
          obtain ⟨mb2, hmb2, horig⟩ :=
            fallbackBatch_orig svc omap rest c1 tbs c h tb htb
          exact ⟨mb2, List.mem_cons_of_mem _ hmb2, horig⟩
        | some t =>
          simp only [hs] at h
          cases hf : fallbackBatch svc omap rest c1 with
          | mk e2 c2 =>
            cases e2 with
            | error u => simp only [hf] at h; simp at h
            | ok tbs2 =>
              simp only [hf] at h
              simp at h
              obtain ⟨h1, -⟩ := h
              subst h1
              rcases List.mem_append.mp htb with htb2 | htb2
              · exact ⟨mb, List.mem_cons_self _ _, emitTranslated_orig tb htb2⟩
              · obtain ⟨mb2, hmb2, horig⟩ :=
                  fallbackBatch_orig svc omap rest c1 tbs2 c2 hf tb htb2
                exact ⟨mb2, List.mem_cons_of_mem _ hmb2, horig⟩

/-- Every block emitted by the batch loop over all batches records the
text of a unit of one of the batches as `original_text`. -/
theorem translateBatches_orig (svc : ℕ → ApiResult) (omap : String → Option Block) :
    ∀ (batches : List (List MergedBlock)) (cidx : ℕ)
      (tbs : List TranslatedBlock) (c : ℕ),
      translateBatches svc omap batches cidx = (.ok tbs, c) →
      ∀ tb ∈ tbs, ∃ batch ∈ batches, ∃ mb ∈ batch, tb.original_text = mb.text
  | [], cidx, tbs, c, h, tb, htb => by
    rw [translateBatches] at h
    simp at h
    obtain ⟨h1, -⟩ := h
    subst h1
    simp at htb
  | batch :: rest, cidx, tbs, c, h, tb, htb => by
    rw [translateBatches] at h
    cases hb : batchLoop svc batch.length 3 cidx with
    | mk e c1 =>
      cases e with
      | error u => simp only [hb] at h; simp at h
      | ok outcome =>
        cases outcome with
        | skip =>
          simp only [hb] at h
          obtain ⟨batch2, hbatch2, hrest⟩ :=
            translateBatches_orig svc omap rest c1 tbs c h tb htb
          exact ⟨batch2, List.mem_cons_of_mem _ hbatch2, hrest⟩
        | fallback =>
          simp only [hb] at h
          cases hf : fallbackBatch svc omap batch c1 with
          | mk e2 c2 =>
            cases e2 with
            | error u => simp only [hf] at h; simp at h
            | ok tbs1 =>
              simp only [hf] at h
              cases ht : translateBatches svc omap rest c2 with
              | mk e3 c3 =>
                cases e3 with
                | error u => simp only [ht] at h; simp at h
                | ok tbs2 =>
                  simp only [ht] at h
                  simp at h
                  obtain ⟨h1, -⟩ := h
                  subst h1
                  rcases List.mem_append.mp htb with htb2 | htb2
                  · obtain ⟨mb, hmb, horig⟩ :=
                      fallbackBatch_orig svc omap batch c1 tbs1 c2 hf tb htb2
                    exact ⟨batch, List.mem_cons_self _ _, mb, hmb, horig⟩
                  · obtain ⟨batch2, hbatch2, hrest⟩ :=
                      translateBatches_orig svc omap rest c2 tbs2 c3 ht tb htb2
                    exact ⟨batch2, List.mem_cons_of_mem _ hbatch2, hrest⟩
        | success ts =>
          simp only [hb] at h
          cases ht : translateBatches svc omap rest c1 with
          | mk e2 c2 =>
            cases e2 with
            | error u => simp only [ht] at h; simp at h
            | ok tbs2 =>
              simp only [ht] at h
              simp at h
              obtain ⟨h1, -⟩ := h
              subst h1
              rcases List.mem_append.mp htb with htb2 | htb2
              · obtain ⟨p, hp, htb3⟩ := List.mem_flatMap.mp htb2
                have hp1 : p.1 ∈ batch := (List.of_mem_zip hp).1
                exact ⟨batch, List.mem_cons_self _ _, p.1, hp1,
                  emitTranslated_orig tb htb3⟩
              · obtain ⟨batch2, hbatch2, hrest⟩ :=
                  translateBatches_orig svc omap rest c1 tbs2 c2 ht tb htb2
                exact ⟨batch2, List.mem_cons_of_mem _ hbatch2, hrest⟩

/-- C10: `translate_blocks` silently drops every unit whose text is
empty or whitespace-only before any batching — the result is the same
as on the pre-filtered input; if every unit is empty (or the input is
empty) it returns `[]` without making a single service call (the call
index is unchanged); and every emitted `TranslatedBlock` originates
from a unit with non-empty stripped text. -/
theorem translate_drops_empty (svc : ℕ → ApiResult)
    (omap : String → Option Block) (merged : List MergedBlock) (cidx : ℕ) :
    translateBlocks svc omap merged cidx =
      translateBlocks svc omap
        (merged.filter (fun b => !(pyStrip b.text).isEmpty)) cidx ∧
    ((∀ b ∈ merged, (pyStrip b.text).isEmpty = true) →
      translateBlocks svc omap merged cidx = (.ok [], cidx)) ∧
    (∀ tbs c, translateBlocks svc omap merged cidx = (.ok tbs, c) →
      ∀ tb ∈ tbs, (pyStrip tb.original_text).isEmpty = false) := by
  have hff : (merged.filter (fun b => !(pyStrip b.text).isEmpty)).filter
      (fun b => !(pyStrip b.text).isEmpty) =
      merged.filter (fun b => !(pyStrip b.text).isEmpty) := by
    rw [List.filter_filter]
    simp
  refine ⟨?_, ?_, ?_⟩
  · by_cases h1 : merged.isEmpty = true
    · rw [List.isEmpty_iff.mp h1]
      rfl
    · by_cases h2 :
        (merged.filter (fun b => !(pyStrip b.text).isEmpty)).isEmpty = true
      · unfold translateBlocks
        rw [if_neg h1, if_pos h2, if_pos h2]
      · unfold translateBlocks
        rw [if_neg h1, if_neg h2, if_neg
            (by rw [List.isEmpty_iff] at h2 ⊢; intro hc; exact h2 hc)]
        rw [if_neg (by rw [hff]; exact h2), hff]
  · intro hall
    by_cases h1 : merged.isEmpty = true
    · rw [List.isEmpty_iff.mp h1]; rfl
    · have hnil : merged.filter (fun b => !(pyStrip b.text).isEmpty) = [] :=
        List.filter_eq_nil_iff.mpr (fun b hb => by
          simp only [hall b hb]
          simp)
      unfold translateBlocks
      rw [if_neg h1, hnil]
      rfl
  · intro tbs c h tb htb
    by_cases h1 : merged.isEmpty = true
    · rw [List.isEmpty_iff.mp h1] at h
      unfold translateBlocks at h
      simp at h
      obtain ⟨h2, -⟩ := h
      subst h2
      simp at htb
    · by_cases h2 :
        (merged.filter (fun b => !(pyStrip b.text).isEmpty)).isEmpty = true
      · unfold translateBlocks at h
        rw [if_neg h1, if_pos h2] at h
        simp at h
        obtain ⟨h3, -⟩ := h
        subst h3
        simp at htb
      · unfold translateBlocks at h
        rw [if_neg h1, if_neg h2] at h
        obtain ⟨batch, hbatch, mb, hmb, horig⟩ :=
          translateBatches_orig svc omap _ cidx tbs c h tb htb
        have hmem : mb ∈ merged.filter (fun b => !(pyStrip b.text).isEmpty) :=
          batchSplit_mem hbatch mb hmb
        have hp := (List.mem_filter.mp hmem).2
        rw [horig]
        simpa using hp

/-- A merged unit whose text is whitespace-only. -/
def blankUnit : MergedBlock := ⟨"m1", "   ", ["b1"], 1⟩

/-- A service oracle whose calls all fail with an unexpected error; the
C10 witness never reaches it. -/
def failingSvc : ℕ → ApiResult := fun _ => .otherError

/-- C10 (witness): on the single whitespace-only unit `blankUnit`, the
translator returns `[]` at the unchanged call index 0. -/
theorem translate_drops_empty_witness :
    translateBlocks failingSvc (fun _ => none) [blankUnit] 0 = (.ok [], 0) :=
  (translate_drops_empty failingSvc (fun _ => none) [blankUnit] 0).2.1
    (by decide)

/-! ## Theorems about the chunk pipeline and the run loop -/

/-- C1 (amended): a resource-not-found error raised by the translation
service does propagate out of `translate_blocks`, but `process_chunk`
catches every exception and returns an empty page map for that chunk,
so the run is not aborted: the chunk contributes nothing and the
top-level loop continues with the remaining chunks exactly as if the
fatal chunk had produced no pages (and an output document is still
written whenever any other chunk produced rendered pages). -/
theorem fatal_error_caught (svc : ℕ → ApiResult)
    (render : ℤ → List TranslatedBlock → Option PageBytes)
    (cb : List Block) (rest : List (List Block)) (cidx : ℕ) (acc : PageMap)
    (herr : (translateBlocks svc (buildBlockMap cb) (mergeBlocks cb) cidx).1 =
      .error ()) :
    processChunk svc render cb cidx =
      ([], (translateBlocks svc (buildBlockMap cb) (mergeBlocks cb) cidx).2) ∧
    runChunksAux svc render acc (cb :: rest) cidx =
      runChunksAux svc render acc rest
        (translateBlocks svc (buildBlockMap cb) (mergeBlocks cb) cidx).2 := by
  have hne : ¬ cb.isEmpty = true := by
    intro hcb
    rw [List.isEmpty_iff.mp hcb] at herr
    exact Except.noConfusion herr
  rcases htr : translateBlocks svc (buildBlockMap cb) (mergeBlocks cb) cidx
    with ⟨e, c2⟩
  rw [htr] at herr
  have he : e = .error () := herr
  subst he
  have hbody : processChunkBody svc render cb cidx = (.error (), c2) := by
    unfold processChunkBody
    rw [if_neg hne]
    simp only [htr]
  have hpc : processChunk svc render cb cidx = ([], c2) := by
    unfold processChunk
    simp only [hbody]
  constructor
  · rw [hpc]
  · rw [runChunksAux]
    simp only [hpc]
    congr 1
    simp [dictUpdate]

deriving instance DecidableEq for Except

/-- A service oracle whose first call raises the resource-not-found
error and whose later calls answer a one-segment numbered response. -/
def fatalSvc : ℕ → ApiResult :=
  fun i => if i = 0 then .notFound else .ok "1. ok"

/-- A renderer that renders every requested page to one byte. -/
def okRender : ℤ → List TranslatedBlock → Option PageBytes :=
  fun _ _ => some [7]

/-- Extraction output of the first chunk. -/
def chunkOneBlocks : List Block := [⟨"c1", "Hello", ⟨0, 0, 1, 1⟩, 1⟩]

/-- Extraction output of the second chunk. -/
def chunkTwoBlocks : List Block := [⟨"c2", "World", ⟨0, 0, 1, 1⟩, 11⟩]

/-- C1 (counterexample): the translation service raises
resource-not-found on the first chunk's only batch call, and the error
escapes `translate_blocks` — yet the run does not abort: the second
chunk is still processed and the run ends with a non-empty page map
(page 11), so an output document is written.  The claim's "the error
propagates out of process_chunk ... no later chunk is processed" fails
on the code. -/
theorem fatal_error_counterexample :
    (translateBlocks fatalSvc (buildBlockMap chunkOneBlocks)
        (mergeBlocks chunkOneBlocks) 0).1 = .error () ∧
      runChunks fatalSvc okRender [chunkOneBlocks, chunkTwoBlocks] 0 =
        [(11, [7])] := by
  decide

/-- C1 (witness): applied to the fatal first chunk — the run loop
continues past it with the advanced call index. -/
theorem fatal_error_caught_witness :
    runChunksAux fatalSvc okRender [] [chunkOneBlocks] 0 =
      runChunksAux fatalSvc okRender [] []
        (translateBlocks fatalSvc (buildBlockMap chunkOneBlocks)
          (mergeBlocks chunkOneBlocks) 0).2 :=
  (fatal_error_caught fatalSvc okRender chunkOneBlocks [] 0 [] (by decide)).2

/-! ## Theorems about the exporter -/

/-- When every value stored in the page map is non-empty, the insertion
loop keeps exactly the pages present in the map, in iteration order. -/
theorem savePdfScan_filterMap (m : PageMap)
    (hm : ∀ p b, dictGet m p = some b → b ≠ []) :
    ∀ ps : List ℤ, savePdfScan m ps = ps.filterMap (dictGet m)
  | [] => rfl
  | p :: ps => by
    rw [savePdfScan, List.filterMap_cons]
    cases hg : dictGet m p with
    | some b =>
      have hb : b.isEmpty = false := by
        rcases b with _ | ⟨x, xs⟩
        · exact absurd rfl (hm p [] hg)
        · rfl
      simp only [hg, hb, Bool.false_eq_true, if_false]
      rw [savePdfScan_filterMap m hm ps]
    | none =>
      simp only [hg]
      rw [savePdfScan_filterMap m hm ps]

/-- C7 (amended): `save_pdf` iterates pages `1 .. total` in ascending
order and inserts exactly the pages present in the map *with non-empty
bytes*, silently omitting the others; when nothing is inserted no
document is written at all.  (Presence alone is not enough: the
`if page_bytes:` truthiness test also drops a present page whose bytes
are empty.) -/
theorem export_keeps_present_pages (m : PageMap) (total : ℕ)
    (hm : ∀ p b, dictGet m p = some b → b ≠ []) :
    savePdfResult m total =
      if ((pageRange total).filterMap (dictGet m)).isEmpty then none
      else some ((pageRange total).filterMap (dictGet m)) := by
  unfold savePdfResult
  rw [savePdfScan_filterMap m hm]
  generalize (pageRange total).filterMap (dictGet m) = L
  cases L <;> simp

/-- The sparse page map of the C7 witness: pages 1, 3 and 5 of a
five-page document. -/
def sparseMap : PageMap := [(1, [10]), (3, [30]), (5, [50])]

/-- C7 (witness): with `total_page_count = 5` and rendered pages
`{1, 3, 5}`, the saved document has exactly three pages, in the order
1, 3, 5. -/
theorem export_keeps_present_pages_witness :
    savePdfResult sparseMap 5 = some [[10], [30], [50]] := by
  have hm : ∀ p b, dictGet sparseMap p = some b → b ≠ [] := by
    intro p b hb
    simp only [sparseMap, dictGet, List.foldl_cons, List.foldl_nil] at hb
    split_ifs at hb <;> (injection hb with hb2; subst hb2; decide)
  rw [export_keeps_present_pages sparseMap 5 hm]
  decide

/-- C7 (counterexample): a page that is present in the map but with
empty bytes is silently dropped by the `if page_bytes:` truthiness
test — with `total_page_count = 1` and the map `{1: b""}`, nothing is
inserted and no document is saved, although the claim promises that
every page present in the map is appended. -/
theorem export_drops_empty_bytes_page :
    dictGet [((1 : ℤ), ([] : PageBytes))] 1 = some [] ∧
      savePdfResult [((1 : ℤ), ([] : PageBytes))] 1 = none := by
  decide

/-! ## Theorems about the layout engine -/

/-- C8 (amended): the draw origin's x-coordinate is always
`bbox.x * 72`, and whenever the converted height `bbox.height * 72` is
at least one point (so the minimum-size clamp does not fire), the
origin is exactly the claimed vertical flip
`(bbox.x * 72, H - (bbox.y * 72 + bbox.height * 72))`. -/
theorem drawOrigin_flip :
    (∀ (bbox : BoundingBox) (H : ℚ), (drawOrigin bbox H).1 = bbox.x * 72) ∧
    (∀ (bbox : BoundingBox) (H : ℚ), 1 ≤ bbox.height * 72 →
      drawOrigin bbox H =
        (bbox.x * 72, H - (bbox.y * 72 + bbox.height * 72))) := by
  constructor
  · intro bbox H
    rfl
  · intro bbox H h
    unfold drawOrigin
    rw [max_eq_right h]

/-- C8 (witness): for the bbox `(x=1in, y=1in, w=2in, h=0.5in)` on a
page of height 1000 points the clamp is inactive and the origin is
`(72, 1000 - 108) = (72, 892)`. -/
theorem drawOrigin_flip_witness :
    (1 : ℚ) ≤ (1/2 : ℚ) * 72 ∧
      drawOrigin ⟨1, 1, 2, 1/2⟩ 1000 = (72, 892) :=
  ⟨by norm_num, by
    rw [drawOrigin_flip.2 ⟨1, 1, 2, 1/2⟩ 1000 (by norm_num)]
    norm_num⟩

/-- C8 (counterexample): for a degenerate bbox of height 0 the clamp
fires (`max(1.0, 0)` = one point) and the computed `frame_y` is
`H - 1`, not the claimed `H - (bbox.y*72 + bbox.height*72) = H`. -/
theorem drawOrigin_clamp_counterexample :
    (drawOrigin ⟨0, 0, 1, 0⟩ 792).2 ≠ 792 - ((0 : ℚ) * 72 + 0 * 72) := by
  show (792 : ℚ) - ((0 : ℚ) * 72 + max 1 ((0 : ℚ) * 72)) ≠
    792 - ((0 : ℚ) * 72 + 0 * 72)
  rw [max_eq_left (by norm_num : ((0 : ℚ) * 72) ≤ 1)]
  norm_num
